import Mathlib

/-!
Verification of the portfolio risk analytics and alert engine
(`src/strategy/risk.py`, `src/strategy/health.py`, `src/strategy/alerts.py`,
`src/strategy/signals.py`) against its natural-language specification.

The Python code is shallowly embedded: prices and all derived statistics are
rationals (`ℚ`), a price series is a list of (date, close) pairs, and the
external price-history provider (`src/data/fetcher.py`, an external
collaborator per spec section 2) is an explicit environment parameter
`ticker → period → series`.  Presentation-only fields of the Python
dataclasses (human-readable messages, action suggestions, timestamps,
`portfolio_id`) are omitted: no claim mentions them.  `pandas`/`numpy`
numerics are modelled exactly over `ℚ`; the one divergence is division by a
zero price, which yields `0` in `ℚ` where pandas would produce `inf` — no
theorem below evaluates a series containing a zero price at a division.
-/

namespace Trader

/-- A price series: ordered `(date, close)` pairs, oldest first.  Mirrors the
`close` column of the DataFrame returned by `fetch_price_history`; the date
key is kept because `calculate_beta` aligns two series on their date index. -/
abbrev PriceSeries := List (ℤ × ℚ)

/-- The external price-history provider: `ticker → period → series`.
An empty list models an empty DataFrame. -/
abbrev PriceEnv := String → String → PriceSeries

/-- One portfolio holding, as the dict `{"ticker", "shares", "buy_price"}`
consumed by the strategy modules. -/
structure Holding where
  ticker : String
  shares : ℚ
  buyPrice : ℚ
deriving DecidableEq, Repr

/-- Closing prices of a series, in order. -/
def closesOf (s : PriceSeries) : List ℚ := s.map Prod.snd

/-- The last close of a series (`df["close"].iloc[-1]`); `0` on an empty
series, which every caller guards against. -/
def lastClose (s : PriceSeries) : ℚ := (closesOf s).getLastD 0

/-- The second-to-last close (`df["close"].iloc[-2]`). -/
def prevClose (s : PriceSeries) : ℚ := (closesOf s).getD ((closesOf s).length - 2) 0

/-- Arithmetic mean of a list (`Series.mean`); `0` for the empty list. -/
def listMean (l : List ℚ) : ℚ := l.sum / l.length

/-- `np.clip(x, lo, hi)`. -/
def npClip (x lo hi : ℚ) : ℚ := max lo (min hi x)

/-- Round-half-to-even on a rational, the rounding mode of Python's `round`. -/
def rhe (x : ℚ) : ℤ :=
  if x - ⌊x⌋ < 1/2 then ⌊x⌋
  else if 1/2 < x - ⌊x⌋ then ⌊x⌋ + 1
  else if 2 ∣ ⌊x⌋ then ⌊x⌋ else ⌊x⌋ + 1

/-- Python's `round(x, n)` modelled exactly on rationals. -/
def pyRound (n : ℕ) (x : ℚ) : ℚ := (rhe (x * 10 ^ n) : ℚ) / 10 ^ n

/-- Daily returns of a price series: `df["close"].pct_change().dropna()`.
Entry `(d, (p - q)/q)` for consecutive closes `q` at the previous date and
`p` at date `d`. -/
def pctChange (s : PriceSeries) : PriceSeries :=
  (s.zip s.tail).map (fun pq => (pq.2.1, (pq.2.2 - pq.1.2) / pq.1.2))

/-- Whether the character list `s` starts with the character list `t`. -/
def listStartsWith : List Char → List Char → Bool
  | _, [] => true
  | [], _ :: _ => false
  | a :: as, b :: bs => a = b && listStartsWith as bs

/-- Python's `s.endswith(t)` (Lean's own `String.endsWith` does not reduce in
the kernel, so it is re-implemented on the character list). -/
def strEndsWith (s t : String) : Bool := listStartsWith s.data.reverse t.data.reverse

/-- Python `dict` insertion `d[k] = v` on an insertion-ordered association
list: an existing key keeps its position and gets the new value, a new key is
appended. -/
def dictInsert (k : String) (v : α) : List (String × α) → List (String × α)
  | [] => [(k, v)]
  | p :: rest => if p.1 = k then (k, v) :: rest else p :: dictInsert k v rest

/-- Python `d[k] = d.get(k, 0) + v` on an insertion-ordered association
list. -/
def dictAdd (k : String) (v : ℚ) : List (String × ℚ) → List (String × ℚ)
  | [] => [(k, v)]
  | p :: rest => if p.1 = k then (k, p.2 + v) :: rest else p :: dictAdd k v rest

/-- Python `d.get(k, 0)`. -/
def dictGet (d : List (String × ℚ)) (k : String) : ℚ :=
  match d.find? (fun p => p.1 = k) with
  | some p => p.2
  | none => 0

/-!
## Risk Metrics Calculator (`src/strategy/risk.py`)

Only the functions a claim depends on are embedded: `calculate_hhi`,
`calculate_var` (with the NumPy linear-interpolation percentile it calls),
`calculate_beta`, and the market-index selection and beta map of
`calculate_risk_metrics` (lines 360-376).  `calculate_volatility`,
`calculate_sharpe_ratio` and the correlation functions multiply by `√252`
or need none of the claims, so they are left out of the embedding.
-/

/-- The fixed domestic market index (`_MARKET_INDEX_JP`). -/
def MARKET_INDEX_JP : String := "^N225"

/-- The fixed broad foreign market index (`_MARKET_INDEX_US`). -/
def MARKET_INDEX_US : String := "^GSPC"

/-- Herfindahl-Hirschman index of a weight mapping: `calculate_hhi`.  The
source iterates `weights.values()`; the association list mirrors the dict. -/
def calculate_hhi (weights : List (String × ℚ)) : ℚ :=
  if weights = [] then 0
  else
    let total := (weights.map Prod.snd).sum
    if total = 0 then 0
    else ((weights.map Prod.snd).map (fun w => (w / total) ^ 2)).sum

/-- NumPy's `np.percentile(a, q)` with the default linear interpolation:
on the ascending sort `s` of `a`, the value at fractional index
`h = q/100 * (n-1)`.  The out-of-range fallback of `getD` is never reached
for `0 ≤ q ≤ 100`. -/
def npPercentile (a : List ℚ) (q : ℚ) : ℚ :=
  let s := a.insertionSort (· ≤ ·)
  let h := q / 100 * ((a.length : ℚ) - 1)
  let i := (⌊h⌋).toNat
  let x := s.getD i 0
  let y := s.getD (i + 1) x
  x + (h - (i : ℚ)) * (y - x)

/-- Historical value-at-risk: `calculate_var`.  `returns.empty or
len(returns) < 10` collapses to the length test. -/
def calculate_var (returns : List ℚ) (confidence : ℚ) (portfolio_value : ℚ) : ℚ :=
  if returns.length < 10 then 0
  else |npPercentile returns ((1 - confidence) * 100)| * portfolio_value

/-- Date-alignment of a stock and a market return series:
`pd.DataFrame({"stock": .., "market": ..}).dropna()` keeps the dates present
in both series, paired as `(stock return, market return)`. -/
def alignSeries (stock market : PriceSeries) : List (ℚ × ℚ) :=
  stock.filterMap (fun p =>
    match market.find? (fun q => q.1 = p.1) with
    | some q => some (p.2, q.2)
    | none => none)

/-- Pandas sample variance (`Series.var`, `ddof=1`). -/
def sampleVar (l : List ℚ) : ℚ :=
  let m := listMean l
  (l.map (fun x => (x - m) ^ 2)).sum / ((l.length : ℚ) - 1)

/-- Pandas sample covariance (`Series.cov`, `ddof=1`) of paired data. -/
def sampleCov (l : List (ℚ × ℚ)) : ℚ :=
  let mx := listMean (l.map Prod.fst)
  let my := listMean (l.map Prod.snd)
  (l.map (fun p => (p.1 - mx) * (p.2 - my))).sum / ((l.length : ℚ) - 1)

/-- Beta of a stock against a market index: `calculate_beta`. -/
def calculate_beta (stock_returns market_returns : PriceSeries) : ℚ :=
  if stock_returns = [] ∨ market_returns = [] then 1
  else
    let aligned := alignSeries stock_returns market_returns
    if aligned.length < 10 then 1
    else
      let var_market := sampleVar (aligned.map Prod.snd)
      if var_market = 0 then 1
      else sampleCov aligned / var_market

/-- The `individual_returns` dict of `_calc_portfolio_returns`: per holding,
a ticker whose fetched series has at least 2 rows is inserted with its daily
returns; others are skipped. -/
def individual_returns (env : PriceEnv) (period : String) (holdings : List Holding) :
    List (String × PriceSeries) :=
  holdings.foldl
    (fun d h =>
      let df := env h.ticker period
      if 2 ≤ df.length then dictInsert h.ticker (pctChange df) d else d)
    []

/-- The market-index ticker chosen by `calculate_risk_metrics` (lines
361-366): the explicit one if supplied, else `^N225` when the FIRST
holding's ticker ends with `".T"`, else `^GSPC`. -/
def risk_market_ticker (holdings : List Holding) (market_ticker : Option String) : String :=
  match market_ticker with
  | some t => t
  | none =>
    let first_ticker := match holdings with
      | [] => ""
      | h :: _ => h.ticker
    if strEndsWith first_ticker ".T" then MARKET_INDEX_JP else MARKET_INDEX_US

/-- The market return series of `calculate_risk_metrics` (lines 368-372). -/
def risk_market_returns (env : PriceEnv) (period : String) (mkt : String) : PriceSeries :=
  let market_df := env mkt period
  if 2 ≤ market_df.length then pctChange market_df else []

/-- The per-ticker beta map of `calculate_risk_metrics` (lines 360-376):
each entry of `individual_returns` is betaed against the single selected
market index and rounded to 3 decimals. -/
def risk_betas (env : PriceEnv) (period : String) (holdings : List Holding)
    (market_ticker : Option String) : List (String × ℚ) :=
  let mkt := risk_market_ticker holdings market_ticker
  let market_returns := risk_market_returns env period mkt
  (individual_returns env period holdings).map
    (fun p => (p.1, pyRound 3 (calculate_beta p.2 market_returns)))

/-!
## Health Scorer (`src/strategy/health.py`)

`HealthScore.message`, `breakdown` and `detail` are presentation data no
claim touches and are omitted; `level` is the tier string.  Risk metrics
enter `calculate_health_score` as an argument (the `risk_metrics=None`
branch delegates to `calculate_risk_metrics`, whose volatility fields are
irrational and outside every claim; all claims about the scorer hold for
every supplied metrics record, which subsumes the computed one).
-/

/-- The scalar risk-metric fields `calculate_health_score` reads. -/
structure RiskMetrics where
  portfolio_volatility : ℚ
  max_drawdown : ℚ
  sharpe_ratio : ℚ
  hhi : ℚ
  avg_correlation : ℚ
deriving DecidableEq, Repr

/-- A health score: total and traffic-light tier. -/
structure HealthScore where
  total : ℚ
  level : String
deriving DecidableEq, Repr

/-- Inverse normalization `_score_inverse`: 100 at or below *good*, 0 at or
above *bad*, linear in between, clipped to [0, 100]. -/
def score_inverse (value good bad : ℚ) : ℚ :=
  if bad = good then 50
  else npClip ((bad - value) / (bad - good) * 100) 0 100

/-- Tier from total: `_determine_level` (the message part is omitted). -/
def determine_level (score : ℚ) : String :=
  if 70 ≤ score then "green"
  else if 40 ≤ score then "yellow"
  else "red"

/-- Whether `_calc_unrealized_loss_ratio` counts a holding as a loss: not
skipped for non-positive cost basis, not skipped for an empty price history,
and the sign test `pnl_pct < 0` on the last close against the cost basis. -/
def countsAsLoss (env : PriceEnv) (h : Holding) : Prop :=
  0 < h.buyPrice ∧ env h.ticker "5d" ≠ [] ∧
    (lastClose (env h.ticker "5d") - h.buyPrice) / h.buyPrice < 0

instance (env : PriceEnv) (h : Holding) : Decidable (countsAsLoss env h) := by
  unfold countsAsLoss; infer_instance

/-- The unrealized-loss fraction `_calc_unrealized_loss_ratio` (the detail
dict is omitted): the loop counts holdings that survive both skips and show
a negative return, and divides by `len(holdings)`. -/
def calc_unrealized_loss_ratio (env : PriceEnv) (holdings : List Holding) : ℚ :=
  if holdings = [] then 0
  else
    let loss_count := holdings.foldl
      (fun acc h =>
        if h.buyPrice ≤ 0 then acc
        else if env h.ticker "5d" = [] then acc
        else if (lastClose (env h.ticker "5d") - h.buyPrice) / h.buyPrice < 0
          then acc + 1 else acc)
      (0 : ℕ)
    let total := holdings.length
    if 0 < total then (loss_count : ℚ) / (total : ℚ) else 0

/-- The health score `calculate_health_score` for a supplied metrics
record. -/
def calculate_health_score (env : PriceEnv) (holdings : List Holding)
    (risk_metrics : RiskMetrics) : HealthScore :=
  if holdings = [] then { total := 0, level := "red" }
  else
    let diversity_score := score_inverse risk_metrics.hhi (1/10) (1/2)
    let volatility_score := score_inverse risk_metrics.portfolio_volatility (15/100) (40/100)
    let drawdown_score := score_inverse risk_metrics.max_drawdown (5/100) (30/100)
    let correlation_score := score_inverse risk_metrics.avg_correlation (3/10) (8/10)
    let loss_score := score_inverse (calc_unrealized_loss_ratio env holdings) 0 (1/2)
    let total := pyRound 2 (npClip
      (diversity_score * (30/100) + volatility_score * (25/100)
        + drawdown_score * (20/100) + correlation_score * (15/100)
        + loss_score * (10/100)) 0 100)
    { total := total, level := determine_level total }

/-!
## Alert Rule Engine (`src/strategy/alerts.py`)

`Alert.message`, `action_suggestion`, `detail`, `created_at` and
`portfolio_id` are presentation/bookkeeping fields no claim touches and are
omitted.  The sector lookup `fetch_stock_info(t).get("sector", "Unknown")`
(external provider) is the environment function `sectorOf`, with `none`
standing for both a missing info dict and a missing sector key.  The health
score enters `generate_alerts` as an argument (the `health_score=None`
branch delegates to `calculate_health_score`).
-/

/-- An alert: rule code, severity level and optional ticker. -/
structure Alert where
  alert_type : String
  level : ℕ
  ticker : Option String
deriving DecidableEq, Repr

/-- The sector provider: `fetch_stock_info(t)` followed by
`info.get("sector", "Unknown") if info else "Unknown"`. -/
abbrev SectorEnv := String → Option String

/-- W-01: a holding's one-day return at or below -5% (level 2).  Skips a
ticker with fewer than 2 rows of history or a zero previous close. -/
def check_w01_daily_drop (env : PriceEnv) (holdings : List Holding) : List Alert :=
  holdings.foldr
    (fun h acc =>
      let df := env h.ticker "5d"
      if df.length < 2 then acc
      else if prevClose df = 0 then acc
      else if (lastClose df - prevClose df) / prevClose df ≤ -(5/100)
        then { alert_type := "W-01", level := 2, ticker := some h.ticker } :: acc
      else acc)
    []

/-- The alerts W-02/W-03 produce for ONE holding: skip on non-positive cost
basis or missing history, then `if loss ≤ -15% … elif loss ≤ -10% …`. -/
def w02_w03_one (env : PriceEnv) (h : Holding) : List Alert :=
  if h.buyPrice ≤ 0 then []
  else
    let df := env h.ticker "5d"
    if df = [] then []
    else
      let loss_pct := (lastClose df - h.buyPrice) / h.buyPrice
      if loss_pct ≤ -(15/100) then
        [{ alert_type := "W-03", level := 4, ticker := some h.ticker }]
      else if loss_pct ≤ -(10/100) then
        [{ alert_type := "W-02", level := 3, ticker := some h.ticker }]
      else []

/-- W-02/W-03: loss from cost basis, per holding:
`_check_w02_w03_loss_from_buy`. -/
def check_w02_w03_loss_from_buy (env : PriceEnv) (holdings : List Holding) : List Alert :=
  holdings.flatMap (w02_w03_one env)

/-- W-04/W-05: health-score alerts: `_check_w04_w05_health`. -/
def check_w04_w05_health (health_score : HealthScore) : List Alert :=
  if health_score.total < 40 then
    [{ alert_type := "W-04", level := 4, ticker := none }]
  else if health_score.total < 70 then
    [{ alert_type := "W-05", level := 2, ticker := none }]
  else []

/-- The market-value dict `_calc_weights`: price times shares per ticker with
available history (a repeated ticker keeps its first position and last
value, as a Python dict does). -/
def calc_weights (env : PriceEnv) (holdings : List Holding) : List (String × ℚ) :=
  holdings.foldl
    (fun d h =>
      let df := env h.ticker "5d"
      if df = [] then d else dictInsert h.ticker (lastClose df * h.shares) d)
    []

/-- W-06: a single ticker above 30% of market value: `_check_w06_concentration`. -/
def check_w06_concentration (env : PriceEnv) (holdings : List Holding) : List Alert :=
  let weights := calc_weights env holdings
  let total := (weights.map Prod.snd).sum
  if total = 0 then []
  else
    weights.foldr
      (fun p acc =>
        if 30/100 < p.2 / total
          then { alert_type := "W-06", level := 3, ticker := some p.1 } :: acc
        else acc)
      []

/-- The per-sector weight dict of `_check_w07_sector_concentration`. -/
def sector_weights (env : PriceEnv) (sectorOf : SectorEnv) (holdings : List Holding) :
    List (String × ℚ) :=
  let weights := calc_weights env holdings
  holdings.foldl
    (fun d h =>
      let sector := (sectorOf h.ticker).getD "Unknown"
      dictAdd sector (dictGet weights h.ticker) d)
    []

/-- W-07: a single sector above 50% of market value:
`_check_w07_sector_concentration`. -/
def check_w07_sector_concentration (env : PriceEnv) (sectorOf : SectorEnv)
    (holdings : List Holding) : List Alert :=
  let weights := calc_weights env holdings
  let total := (weights.map Prod.snd).sum
  if total = 0 then []
  else
    (sector_weights env sectorOf holdings).foldr
      (fun p acc =>
        if 50/100 < p.2 / total
          then { alert_type := "W-07", level := 3, ticker := none } :: acc
        else acc)
      []

/-- W-08: a market index down 3% or more on the day: `_check_w08_market_crash`
over the fixed list `["^N225", "^GSPC"]`. -/
def check_w08_market_crash (env : PriceEnv) : List Alert :=
  [MARKET_INDEX_JP, MARKET_INDEX_US].foldr
    (fun idx acc =>
      let df := env idx "5d"
      if df.length < 2 then acc
      else if prevClose df = 0 then acc
      else if (lastClose df - prevClose df) / prevClose df ≤ -(3/100)
        then { alert_type := "W-08", level := 3, ticker := none } :: acc
      else acc)
    []

/-- W-09: at least half the holdings with data fell on the day:
`_check_w09_majority_drop`. -/
def check_w09_majority_drop (env : PriceEnv) (holdings : List Holding) : List Alert :=
  if holdings = [] then []
  else
    let counted := holdings.filter (fun h => 2 ≤ (env h.ticker "5d").length)
    let dropped := counted.filter
      (fun h =>
        let df := env h.ticker "5d"
        0 < prevClose df ∧ lastClose df < prevClose df)
    if counted.length = 0 then []
    else if 50/100 ≤ (dropped.length : ℚ) / (counted.length : ℚ) then
      [{ alert_type := "W-09", level := 3, ticker := none }]
    else []

/-- The backward walk of W-10: trailing run of closes strictly below the cost
basis, counted from the most recent day. -/
def trailingLossDays (closes : List ℚ) (buy : ℚ) : ℕ :=
  (closes.reverse.takeWhile (fun p => p < buy)).length

/-- W-10: an unrealized loss has continued 30 trading days or more:
`_check_w10_stale_loss`. -/
def check_w10_stale_loss (env : PriceEnv) (holdings : List Holding) : List Alert :=
  holdings.foldr
    (fun h acc =>
      if h.buyPrice ≤ 0 then acc
      else
        let df := env h.ticker "3mo"
        if df = [] then acc
        else if h.buyPrice ≤ lastClose df then acc
        else if 30 ≤ trailingLossDays (closesOf df) h.buyPrice
          then { alert_type := "W-10", level := 2, ticker := some h.ticker } :: acc
        else acc)
    []

/-- The rule-evaluation-order concatenation `generate_alerts` builds before
sorting: W-01 first through W-10 last, each rule in holdings order. -/
def pre_alerts (env : PriceEnv) (sectorOf : SectorEnv) (holdings : List Holding)
    (health_score : HealthScore) : List Alert :=
  check_w01_daily_drop env holdings
    ++ check_w02_w03_loss_from_buy env holdings
    ++ check_w04_w05_health health_score
    ++ check_w06_concentration env holdings
    ++ check_w07_sector_concentration env sectorOf holdings
    ++ check_w08_market_crash env
    ++ check_w09_majority_drop env holdings
    ++ check_w10_stale_loss env holdings

/-- Severity order used by the final sort: level descending. -/
def levelGE (a b : Alert) : Prop := b.level ≤ a.level

instance : DecidableRel levelGE := fun a b => Nat.decLe b.level a.level

/-- All alerts of one run: `generate_alerts` with a supplied health score.
Python's `list.sort(key=level, reverse=True)` is a stable sort by level
descending; any stable sort computes the same list, here insertion sort. -/
def generate_alerts (env : PriceEnv) (sectorOf : SectorEnv) (holdings : List Holding)
    (health_score : HealthScore) : List Alert :=
  (pre_alerts env sectorOf holdings health_score).insertionSort levelGE

/-!
## Signal Detector (`src/strategy/signals.py`), golden cross only

The claims touch `detect_golden_cross` alone.  Timestamps
(`created_at`/`expires_at`) and the message are presentation fields and are
omitted from the embedded signal.
-/

/-- Modelled from the spec: `calculate_ma` lives in `src/data/indicators.py`,
which is not part of the analyzed sources.  Per spec section 4.4 the
detector works on "short-window and long-window simple moving averages of
closing price", so the moving average is the list of means of each full
`window`-long run of closes, oldest first (the NaN head pandas produces for
partial windows carries no data and is dropped). -/
def calculate_ma (window : ℕ) (closes : List ℚ) : List ℚ :=
  (List.range (closes.length + 1 - window)).map
    (fun i => listMean ((closes.drop i).take window))

/-- A golden-cross signal: the rounded moving-average values of the detail
dict, plus ticker and windows. -/
structure GCSignal where
  ticker : String
  short_window : ℕ
  long_window : ℕ
  ma_short : ℚ
  ma_long : ℚ
deriving DecidableEq, Repr

/-- Golden-cross detection: `detect_golden_cross`.  `df.empty or len(df) <
long_window + 2` collapses to the length test. -/
def detect_golden_cross (ticker : String) (df : PriceSeries)
    (short_window long_window : ℕ) : Option GCSignal :=
  if df.length < long_window + 2 then none
  else
    let ma_short := calculate_ma short_window (closesOf df)
    let ma_long := calculate_ma long_window (closesOf df)
    if ma_short.length < 2 ∨ ma_long.length < 2 then none
    else
      let prev_short := ma_short.getD (ma_short.length - 2) 0
      let prev_long := ma_long.getD (ma_long.length - 2) 0
      let curr_short := ma_short.getD (ma_short.length - 1) 0
      let curr_long := ma_long.getD (ma_long.length - 1) 0
      if prev_short ≤ prev_long ∧ curr_long < curr_short then
        some { ticker := ticker, short_window := short_window,
               long_window := long_window,
               ma_short := pyRound 2 curr_short, ma_long := pyRound 2 curr_long }
      else none

/-- The simple moving average of the `w` closes ending `k` days before the
most recent one (`k = 0` is the current day, `k = 1` the prior day).  Used
to state the golden-cross claims in the spec's terms. -/
def smaEnd (closes : List ℚ) (w k : ℕ) : ℚ :=
  listMean (((closes.take (closes.length - k)).drop (closes.length - k - w)))

/-!
## Spec-side definitions

Two definitions below follow the words of the specification rather than the
source, to be compared with the source-derived ones: the per-ticker market
index of claim C2 and the unrealized-loss fraction of claim C1.
-/

/-- The fraction claim C1 asserts: holdings with available price and a
current price below cost basis, over holdings with available price and
positive cost basis. -/
def unrealized_loss_fraction_spec (env : PriceEnv) (holdings : List Holding) : ℚ :=
  let avail := holdings.filter (fun h => env h.ticker "5d" ≠ [])
  let num := (avail.filter (fun h => lastClose (env h.ticker "5d") < h.buyPrice)).length
  let den := (avail.filter (fun h => 0 < h.buyPrice)).length
  (num : ℚ) / (den : ℚ)

/-- The beta claim C2 asserts for a ticker: computed against `^N225` exactly
when that ticker's own symbol ends with `".T"`, else against `^GSPC`. -/
def beta_spec (env : PriceEnv) (period : String) (t : String) : ℚ :=
  let idx := if strEndsWith t ".T" then MARKET_INDEX_JP else MARKET_INDEX_US
  pyRound 3 (calculate_beta (pctChange (env t period)) (risk_market_returns env period idx))

/-!
## Helper lemmas
-/

lemma dictInsert_mem {α} {q : String × α} (k : String) (v : α) (d : List (String × α))
    (hq : q ∈ dictInsert k v d) : q = (k, v) ∨ q ∈ d := by
  induction d with
  | nil => simpa [dictInsert] using hq
  | cons p rest ih =>
    by_cases hk : p.1 = k
    · rw [dictInsert, if_pos hk] at hq
      rcases List.mem_cons.mp hq with h | h
      · exact Or.inl h
      · exact Or.inr (List.mem_cons_of_mem _ h)
    · rw [dictInsert, if_neg hk] at hq
      rcases List.mem_cons.mp hq with h | h
      · exact Or.inr (h ▸ List.mem_cons_self _ _)
      · rcases ih h with h' | h'
        · exact Or.inl h'
        · exact Or.inr (List.mem_cons_of_mem _ h')

lemma two_mem_le_length {α} {l : List α} {x y : α}
    (hx : x ∈ l) (hy : y ∈ l) (hxy : x ≠ y) : 2 ≤ l.length := by
  induction l with
  | nil => cases hx
  | cons a t ih =>
    rcases List.mem_cons.mp hx with rfl | hx'
    · rcases List.mem_cons.mp hy with rfl | hy'
      · exact absurd rfl hxy
      · have := List.length_pos_of_mem hy'
        simp only [List.length_cons]
        omega
    · have := List.length_pos_of_mem hx'
      simp only [List.length_cons]
      omega

lemma determine_level_spec (s : ℚ) :
    (determine_level s = "green" ↔ 70 ≤ s) ∧
    (determine_level s = "yellow" ↔ 40 ≤ s ∧ s < 70) ∧
    (determine_level s = "red" ↔ s < 40) := by
  unfold determine_level
  split_ifs with h1 h2
  · refine ⟨⟨fun _ => h1, fun _ => rfl⟩,
      ⟨fun h => absurd h (by decide), ?_⟩,
      ⟨fun h => absurd h (by decide), ?_⟩⟩
    · rintro ⟨-, h⟩; exact absurd h1 (by linarith)
    · intro h; exact absurd h1 (by linarith)
  · refine ⟨⟨fun h => absurd h (by decide), fun h => absurd h h1⟩,
      ⟨fun _ => ⟨h2, lt_of_not_le h1⟩, fun _ => rfl⟩,
      ⟨fun h => absurd h (by decide), fun h => absurd h2 (not_le.mpr h)⟩⟩
  · refine ⟨⟨fun h => absurd h (by decide), ?_⟩,
      ⟨fun h => absurd h (by decide), fun h => absurd h.1 h2⟩,
      ⟨fun _ => lt_of_not_le h2, fun _ => rfl⟩⟩
    intro hge
    exact absurd (le_trans (by norm_num) hge) h2

/-!
## Claims
-/

/-- C10: for every price series with fewer than `long_window + 2` rows, the
golden-cross detector returns no signal regardless of the series' contents,
even though a crossing between the last two days would already be computable
with `long_window + 1` rows. -/
theorem c10_short_series_no_signal (ticker : String) (df : PriceSeries)
    (short_window long_window : ℕ) (h : df.length < long_window + 2) :
    detect_golden_cross ticker df short_window long_window = none := by
  unfold detect_golden_cross
  rw [if_pos h]

theorem c10_short_series_no_signal_witness :
    ((List.replicate 21 ((0 : ℤ), (1 : ℚ))).length < 20 + 2) ∧
      detect_golden_cross "AAPL" (List.replicate 21 ((0 : ℤ), (1 : ℚ))) 5 20 = none :=
  ⟨by simp, c10_short_series_no_signal "AAPL" _ 5 20 (by simp)⟩

/-- C5: for every non-empty holdings list, the health score's tier is
determined from the total with inclusive lower bounds: total ≥ 70 is green
(70 itself included), 40 ≤ total < 70 is yellow (40 itself included), and
total < 40 is red. -/
theorem c5_tier_boundaries (env : PriceEnv) (holdings : List Holding)
    (rm : RiskMetrics) (hne : holdings ≠ []) :
    ((calculate_health_score env holdings rm).level = "green" ↔
      70 ≤ (calculate_health_score env holdings rm).total) ∧
    ((calculate_health_score env holdings rm).level = "yellow" ↔
      40 ≤ (calculate_health_score env holdings rm).total ∧
        (calculate_health_score env holdings rm).total < 70) ∧
    ((calculate_health_score env holdings rm).level = "red" ↔
      (calculate_health_score env holdings rm).total < 40) := by
  unfold calculate_health_score
  rw [if_neg hne]
  exact determine_level_spec _

theorem c5_tier_boundaries_witness :
    ([(⟨"A", 1, 100⟩ : Holding)] ≠ []) ∧
      (((calculate_health_score (fun _ _ => []) [⟨"A", 1, 100⟩] ⟨0, 0, 0, 0, 0⟩).level
          = "green" ↔
        70 ≤ (calculate_health_score (fun _ _ => []) [⟨"A", 1, 100⟩] ⟨0, 0, 0, 0, 0⟩).total) ∧
      ((calculate_health_score (fun _ _ => []) [⟨"A", 1, 100⟩] ⟨0, 0, 0, 0, 0⟩).level
          = "yellow" ↔
        40 ≤ (calculate_health_score (fun _ _ => []) [⟨"A", 1, 100⟩] ⟨0, 0, 0, 0, 0⟩).total ∧
          (calculate_health_score (fun _ _ => []) [⟨"A", 1, 100⟩] ⟨0, 0, 0, 0, 0⟩).total < 70) ∧
      ((calculate_health_score (fun _ _ => []) [⟨"A", 1, 100⟩] ⟨0, 0, 0, 0, 0⟩).level
          = "red" ↔
        (calculate_health_score (fun _ _ => []) [⟨"A", 1, 100⟩] ⟨0, 0, 0, 0, 0⟩).total < 40)) :=
  ⟨by simp, c5_tier_boundaries (fun _ _ => []) [⟨"A", 1, 100⟩] ⟨0, 0, 0, 0, 0⟩ (by simp)⟩

/-- C1, counterexample: the claimed fraction excludes a holding with
non-positive cost basis from the denominator, but `total = len(holdings)`
in the source keeps it there.  With one losing holding and one zero-cost
holding, both with available prices, the code returns 1/2 while the claimed
fraction is 1/1. -/
theorem c1_counterexample :
    calc_unrealized_loss_ratio (fun _ _ => [(0, 50)]) [⟨"A", 1, 100⟩, ⟨"B", 1, 0⟩] = 1/2 ∧
    unrealized_loss_fraction_spec (fun _ _ => [(0, 50)]) [⟨"A", 1, 100⟩, ⟨"B", 1, 0⟩] = 1 ∧
    (1/2 : ℚ) ≠ 1 := by
  refine ⟨?_, ?_, by norm_num⟩
  · norm_num [calc_unrealized_loss_ratio, lastClose, closesOf, List.cons_ne_nil]
  · norm_num [unrealized_loss_fraction_spec, lastClose, closesOf, List.cons_ne_nil]

/-- C1, amended: the unrealized-loss fraction counts in the numerator only
holdings with positive cost basis, available price history and a current
price below cost basis, but divides by the number of ALL holdings — a
holding skipped for missing prices or non-positive cost basis is excluded
from the numerator only, not from the denominator. -/
theorem c1_loss_fraction_amended (env : PriceEnv) (holdings : List Holding) :
    calc_unrealized_loss_ratio env holdings =
      ((holdings.filter (fun h => decide (countsAsLoss env h))).length : ℚ)
        / (holdings.length : ℚ) := by
  unfold calc_unrealized_loss_ratio
  by_cases hne : holdings = []
  · subst hne; simp
  · rw [if_neg hne]
    have hlen : 0 < holdings.length := List.length_pos_of_ne_nil hne
    rw [if_pos hlen]
    congr 2
    have key : ∀ (l : List Holding) (acc : ℕ),
        l.foldl
          (fun acc h =>
            if h.buyPrice ≤ 0 then acc
            else if env h.ticker "5d" = [] then acc
            else if (lastClose (env h.ticker "5d") - h.buyPrice) / h.buyPrice < 0
              then acc + 1 else acc)
          acc
          = acc + (l.filter (fun h => decide (countsAsLoss env h))).length := by
      intro l
      induction l with
      | nil => intro acc; simp
      | cons h t ih =>
        intro acc
        by_cases h1 : h.buyPrice ≤ 0
        · have hnc : ¬ countsAsLoss env h := fun hc => absurd hc.1 (not_lt.mpr h1)
          simp only [List.foldl_cons, if_pos h1, List.filter_cons]
          rw [ih]
          simp [hnc]
        · by_cases h2 : env h.ticker "5d" = []
          · have hnc : ¬ countsAsLoss env h := fun hc => absurd h2 hc.2.1
            simp only [List.foldl_cons, if_neg h1, if_pos h2, List.filter_cons]
            rw [ih]
            simp [hnc]
          · by_cases h3 : (lastClose (env h.ticker "5d") - h.buyPrice) / h.buyPrice < 0
            · have hc : countsAsLoss env h := ⟨lt_of_not_le h1, h2, h3⟩
              simp only [List.foldl_cons, if_neg h1, if_neg h2, if_pos h3,
                List.filter_cons]
              rw [ih]
              simp only [decide_eq_true hc, if_true, List.length_cons]
              omega
            · have hnc : ¬ countsAsLoss env h := fun hc => absurd hc.2.2 h3
              simp only [List.foldl_cons, if_neg h1, if_neg h2, if_neg h3,
                List.filter_cons]
              rw [ih]
              simp [hnc]
    rw [key holdings 0]
    omega

lemma w02_w03_one_ticker (env : PriceEnv) (h : Holding) (a : Alert)
    (ha : a ∈ w02_w03_one env h) : a.ticker = some h.ticker := by
  simp only [w02_w03_one] at ha
  split_ifs at ha <;> simp_all

lemma w02_w03_one_not_both (env : PriceEnv) (h : Holding) (x y : Option String) :
    ¬((⟨"W-02", 3, x⟩ : Alert) ∈ w02_w03_one env h ∧
      (⟨"W-03", 4, y⟩ : Alert) ∈ w02_w03_one env h) := by
  rintro ⟨h2, h3⟩
  simp only [w02_w03_one] at h2 h3
  split_ifs at h2 h3 <;> simp_all

/-- C4, counterexample: nothing prevents a holdings list from carrying the
same ticker twice with different cost bases (the holdings table has no
uniqueness constraint and `add_holding` inserts unconditionally), and two
lots of one ticker at different cost bases can then fire W-02 and W-03 for
the same ticker in the same run. -/
theorem c4_counterexample :
    (⟨"W-02", 3, some "A"⟩ : Alert) ∈
      check_w02_w03_loss_from_buy (fun _ _ => [(0, 100)]) [⟨"A", 1, 112⟩, ⟨"A", 1, 140⟩] ∧
    (⟨"W-03", 4, some "A"⟩ : Alert) ∈
      check_w02_w03_loss_from_buy (fun _ _ => [(0, 100)]) [⟨"A", 1, 112⟩, ⟨"A", 1, 140⟩] := by
  constructor <;>
    norm_num [check_w02_w03_loss_from_buy, w02_w03_one, lastClose, closesOf]

/-- C4, amended: for a holding with positive cost basis and an available
price, a return of exactly -10.0% fires W-02 (level 3) and not W-03, exactly
-15.0% fires W-03 (level 4) and not W-02, and -9.9% fires neither; each
single holding produces at most one of the two, and a ticker occurring at
most once in the holdings list never produces both — but a ticker held in
several lots with different cost bases can receive both in one run. -/
theorem c4_w02_w03_boundaries (env : PriceEnv) (holding : Holding)
    (holdings : List Holding) (t : String)
    (hb : 0 < holding.buyPrice) (hav : env holding.ticker "5d" ≠ [])
    (hcount : (holdings.filter (fun h => decide (h.ticker = t))).length ≤ 1) :
    ((lastClose (env holding.ticker "5d") - holding.buyPrice) / holding.buyPrice
        = -(10/100) →
      w02_w03_one env holding = [⟨"W-02", 3, some holding.ticker⟩]) ∧
    ((lastClose (env holding.ticker "5d") - holding.buyPrice) / holding.buyPrice
        = -(15/100) →
      w02_w03_one env holding = [⟨"W-03", 4, some holding.ticker⟩]) ∧
    ((lastClose (env holding.ticker "5d") - holding.buyPrice) / holding.buyPrice
        = -(99/1000) →
      w02_w03_one env holding = []) ∧
    ¬((⟨"W-02", 3, some t⟩ : Alert) ∈ check_w02_w03_loss_from_buy env holdings ∧
      (⟨"W-03", 4, some t⟩ : Alert) ∈ check_w02_w03_loss_from_buy env holdings) := by
  have hb' : ¬ holding.buyPrice ≤ 0 := not_le.mpr hb
  refine ⟨?_, ?_, ?_, ?_⟩
  · intro hr
    simp only [w02_w03_one, if_neg hb', if_neg hav, hr]
    norm_num
  · intro hr
    simp only [w02_w03_one, if_neg hb', if_neg hav, hr]
    norm_num
  · intro hr
    simp only [w02_w03_one, if_neg hb', if_neg hav, hr]
    norm_num
  · rintro ⟨h2, h3⟩
    unfold check_w02_w03_loss_from_buy at h2 h3
    rcases List.mem_flatMap.mp h2 with ⟨s2, hs2, hin2⟩
    rcases List.mem_flatMap.mp h3 with ⟨s3, hs3, hin3⟩
    have ht2 : s2.ticker = t := by
      have := w02_w03_one_ticker env s2 _ hin2
      simpa using this.symm
    have ht3 : s3.ticker = t := by
      have := w02_w03_one_ticker env s3 _ hin3
      simpa using this.symm
    by_cases hss : s2 = s3
    · subst hss
      exact w02_w03_one_not_both env s2 (some t) (some t) ⟨hin2, hin3⟩
    · have hm2 : s2 ∈ holdings.filter (fun h => decide (h.ticker = t)) :=
        List.mem_filter.mpr ⟨hs2, by simp [ht2]⟩
      have hm3 : s3 ∈ holdings.filter (fun h => decide (h.ticker = t)) :=
        List.mem_filter.mpr ⟨hs3, by simp [ht3]⟩
      have := two_mem_le_length hm2 hm3 hss
      omega

theorem c4_w02_w03_boundaries_witness :
    ((0 : ℚ) < (⟨"A", 1, 100⟩ : Holding).buyPrice) ∧
    ((fun (_ : String) (_ : String) => [((0 : ℤ), (90 : ℚ))]) "A" "5d" ≠ []) ∧
    (([(⟨"A", 1, 100⟩ : Holding)].filter
        (fun h => decide (h.ticker = "A"))).length ≤ 1) ∧
    (((lastClose ((fun (_ : String) (_ : String) => [((0 : ℤ), (90 : ℚ))]) "A" "5d")
          - (100 : ℚ)) / 100 = -(10/100) →
      w02_w03_one (fun _ _ => [(0, 90)]) ⟨"A", 1, 100⟩ = [⟨"W-02", 3, some "A"⟩]) ∧
    ((lastClose ((fun (_ : String) (_ : String) => [((0 : ℤ), (90 : ℚ))]) "A" "5d")
          - (100 : ℚ)) / 100 = -(15/100) →
      w02_w03_one (fun _ _ => [(0, 90)]) ⟨"A", 1, 100⟩ = [⟨"W-03", 4, some "A"⟩]) ∧
    ((lastClose ((fun (_ : String) (_ : String) => [((0 : ℤ), (90 : ℚ))]) "A" "5d")
          - (100 : ℚ)) / 100 = -(99/1000) →
      w02_w03_one (fun _ _ => [(0, 90)]) ⟨"A", 1, 100⟩ = []) ∧
    ¬((⟨"W-02", 3, some "A"⟩ : Alert) ∈
        check_w02_w03_loss_from_buy (fun _ _ => [(0, 90)]) [⟨"A", 1, 100⟩] ∧
      (⟨"W-03", 4, some "A"⟩ : Alert) ∈
        check_w02_w03_loss_from_buy (fun _ _ => [(0, 90)]) [⟨"A", 1, 100⟩])) :=
  ⟨by norm_num, by simp, by simp,
    c4_w02_w03_boundaries (fun _ _ => [(0, 90)]) ⟨"A", 1, 100⟩ [⟨"A", 1, 100⟩] "A"
      (by norm_num) (by simp) (by simp)⟩

lemma w01_level (env : PriceEnv) (holdings : List Holding) :
    ∀ a ∈ check_w01_daily_drop env holdings, a.level = 2 := by
  induction holdings with
  | nil => intro a ha; cases ha
  | cons h t ih =>
    intro a ha
    rw [check_w01_daily_drop, List.foldr_cons] at ha
    simp only [] at ha
    split_ifs at ha
    · exact ih a ha
    · exact ih a ha
    · rcases List.mem_cons.mp ha with rfl | ha'
      · rfl
      · exact ih a ha'
    · exact ih a ha

lemma w02_w03_level (env : PriceEnv) (holdings : List Holding) :
    ∀ a ∈ check_w02_w03_loss_from_buy env holdings, a.level = 3 ∨ a.level = 4 := by
  intro a ha
  rcases List.mem_flatMap.mp ha with ⟨h, -, hin⟩
  simp only [w02_w03_one] at hin
  split_ifs at hin <;> simp_all

lemma w04_w05_level (hs : HealthScore) :
    ∀ a ∈ check_w04_w05_health hs, a.level = 4 ∨ a.level = 2 := by
  intro a ha
  unfold check_w04_w05_health at ha
  split_ifs at ha <;> simp_all

lemma w06_foldr_level (total : ℚ) (ws : List (String × ℚ)) :
    ∀ a ∈ ws.foldr
      (fun p acc =>
        if 30/100 < p.2 / total
          then ({ alert_type := "W-06", level := 3, ticker := some p.1 } : Alert) :: acc
        else acc) [],
      a.level = 3 := by
  induction ws with
  | nil => intro a ha; cases ha
  | cons p rest ih =>
    intro a ha
    rw [List.foldr_cons] at ha
    split_ifs at ha
    · rcases List.mem_cons.mp ha with rfl | ha'
      · rfl
      · exact ih a ha'
    · exact ih a ha

lemma w06_level (env : PriceEnv) (holdings : List Holding) :
    ∀ a ∈ check_w06_concentration env holdings, a.level = 3 := by
  intro a ha
  unfold check_w06_concentration at ha
  simp only [] at ha
  split_ifs at ha
  · cases ha
  · exact w06_foldr_level _ _ a ha

lemma w07_foldr_level (total : ℚ) (ws : List (String × ℚ)) :
    ∀ a ∈ ws.foldr
      (fun p acc =>
        if 50/100 < p.2 / total
          then ({ alert_type := "W-07", level := 3, ticker := none } : Alert) :: acc
        else acc) [],
      a.level = 3 := by
  induction ws with
  | nil => intro a ha; cases ha
  | cons p rest ih =>
    intro a ha
    rw [List.foldr_cons] at ha
    split_ifs at ha
    · rcases List.mem_cons.mp ha with rfl | ha'
      · rfl
      · exact ih a ha'
    · exact ih a ha

lemma w07_level (env : PriceEnv) (sectorOf : SectorEnv) (holdings : List Holding) :
    ∀ a ∈ check_w07_sector_concentration env sectorOf holdings, a.level = 3 := by
  intro a ha
  unfold check_w07_sector_concentration at ha
  simp only [] at ha
  split_ifs at ha
  · cases ha
  · exact w07_foldr_level _ _ a ha

lemma w08_level (env : PriceEnv) :
    ∀ a ∈ check_w08_market_crash env, a.level = 3 := by
  intro a ha
  unfold check_w08_market_crash at ha
  simp only [List.foldr_cons, List.foldr_nil] at ha
  split_ifs at ha <;> simp_all

lemma w09_level (env : PriceEnv) (holdings : List Holding) :
    ∀ a ∈ check_w09_majority_drop env holdings, a.level = 3 := by
  intro a ha
  unfold check_w09_majority_drop at ha
  simp only [] at ha
  split_ifs at ha <;> simp_all

lemma w10_level (env : PriceEnv) (holdings : List Holding) :
    ∀ a ∈ check_w10_stale_loss env holdings, a.level = 2 := by
  induction holdings with
  | nil => intro a ha; cases ha
  | cons h t ih =>
    intro a ha
    rw [check_w10_stale_loss, List.foldr_cons] at ha
    simp only [] at ha
    split_ifs at ha
    · exact ih a ha
    · exact ih a ha
    · exact ih a ha
    · rcases List.mem_cons.mp ha with rfl | ha'
      · rfl
      · exact ih a ha'
    · exact ih a ha

/-- Every alert the ten rules can build carries level 2, 3 or 4. -/
lemma pre_alerts_level (env : PriceEnv) (sectorOf : SectorEnv) (holdings : List Holding)
    (hs : HealthScore) :
    ∀ a ∈ pre_alerts env sectorOf holdings hs,
      a.level = 2 ∨ a.level = 3 ∨ a.level = 4 := by
  intro a ha
  unfold pre_alerts at ha
  simp only [List.mem_append] at ha
  rcases ha with ((((((h | h) | h) | h) | h) | h) | h) | h
  · exact Or.inl (w01_level env holdings a h)
  · rcases w02_w03_level env holdings a h with h' | h'
    · exact Or.inr (Or.inl h')
    · exact Or.inr (Or.inr h')
  · rcases w04_w05_level hs a h with h' | h'
    · exact Or.inr (Or.inr h')
    · exact Or.inl h'
  · exact Or.inr (Or.inl (w06_level env holdings a h))
  · exact Or.inr (Or.inl (w07_level env sectorOf holdings a h))
  · exact Or.inr (Or.inl (w08_level env a h))
  · exact Or.inr (Or.inl (w09_level env holdings a h))
  · exact Or.inl (w10_level env holdings a h)

instance : IsTotal Alert levelGE :=
  ⟨fun a b => Or.symm (Nat.le_total a.level b.level)⟩

instance : IsTrans Alert levelGE :=
  ⟨fun _ _ _ hab hbc => Nat.le_trans hbc hab⟩

lemma orderedInsert_skip (a : Alert) (xs ys : List Alert)
    (hx : ∀ x ∈ xs, ¬ levelGE a x) :
    (xs ++ ys).orderedInsert levelGE a = xs ++ ys.orderedInsert levelGE a := by
  induction xs with
  | nil => rfl
  | cons b t ih =>
    have hb : ¬ levelGE a b := hx b (List.mem_cons_self _ _)
    simp only [List.cons_append, List.orderedInsert, if_neg hb, List.append_eq]
    rw [ih (fun x hx' => hx x (List.mem_cons_of_mem _ hx'))]

lemma orderedInsert_front (a : Alert) (ys : List Alert)
    (hy : ∀ y ∈ ys, levelGE a y) :
    ys.orderedInsert levelGE a = a :: ys := by
  cases ys with
  | nil => rfl
  | cons b t =>
    exact List.orderedInsert_of_le levelGE t (hy b (List.mem_cons_self _ _))

/-- A stable sort by level descending of a list whose levels all lie in
{2, 3, 4} is the level-4 entries in order, then the level-3 entries, then
the level-2 entries. -/
lemma insertionSort_filter_decomp (l : List Alert)
    (hl : ∀ a ∈ l, a.level = 2 ∨ a.level = 3 ∨ a.level = 4) :
    l.insertionSort levelGE =
      l.filter (fun a => decide (a.level = 4)) ++
      l.filter (fun a => decide (a.level = 3)) ++
      l.filter (fun a => decide (a.level = 2)) := by
  induction l with
  | nil => rfl
  | cons a t ih =>
    have ht : ∀ x ∈ t, x.level = 2 ∨ x.level = 3 ∨ x.level = 4 :=
      fun x hx => hl x (List.mem_cons_of_mem _ hx)
    have hf4 : ∀ x ∈ t.filter (fun a => decide (a.level = 4)), x.level = 4 :=
      fun x hx => by simpa using (List.mem_filter.mp hx).2
    have hf3 : ∀ x ∈ t.filter (fun a => decide (a.level = 3)), x.level = 3 :=
      fun x hx => by simpa using (List.mem_filter.mp hx).2
    have hf2 : ∀ x ∈ t.filter (fun a => decide (a.level = 2)), x.level = 2 :=
      fun x hx => by simpa using (List.mem_filter.mp hx).2
    rw [List.insertionSort, ih ht]
    rcases hl a (List.mem_cons_self _ _) with h2 | h3 | h4
    · have hskip4 : ∀ x ∈ t.filter (fun a => decide (a.level = 4)), ¬ levelGE a x :=
        fun x hx => by simp [levelGE, hf4 x hx, h2]
      have hskip3 : ∀ x ∈ t.filter (fun a => decide (a.level = 3)), ¬ levelGE a x :=
        fun x hx => by simp [levelGE, hf3 x hx, h2]
      have hfront : ∀ y ∈ t.filter (fun a => decide (a.level = 2)), levelGE a y :=
        fun y hy => by simp [levelGE, hf2 y hy, h2]
      rw [List.append_assoc, orderedInsert_skip a _ _ hskip4,
        orderedInsert_skip a _ _ hskip3, orderedInsert_front a _ hfront]
      simp [List.filter_cons, h2, List.append_assoc]
    · have hskip4 : ∀ x ∈ t.filter (fun a => decide (a.level = 4)), ¬ levelGE a x :=
        fun x hx => by simp [levelGE, hf4 x hx, h3]
      have hfront : ∀ y ∈ t.filter (fun a => decide (a.level = 3)) ++
          t.filter (fun a => decide (a.level = 2)), levelGE a y := by
        intro y hy
        rcases List.mem_append.mp hy with hy' | hy'
        · simp [levelGE, hf3 y hy', h3]
        · simp [levelGE, hf2 y hy', h3]
      rw [List.append_assoc, orderedInsert_skip a _ _ hskip4,
        orderedInsert_front a _ hfront]
      simp [List.filter_cons, h3, List.append_assoc]
    · have hfront : ∀ y ∈ t.filter (fun a => decide (a.level = 4)) ++
          (t.filter (fun a => decide (a.level = 3)) ++
            t.filter (fun a => decide (a.level = 2))), levelGE a y := by
        intro y hy
        rcases List.mem_append.mp hy with hy' | hy'
        · simp [levelGE, hf4 y hy', h4]
        · rcases List.mem_append.mp hy' with hy'' | hy''
          · simp [levelGE, hf3 y hy'', h4]
          · simp [levelGE, hf2 y hy'', h4]
      rw [List.append_assoc, orderedInsert_front a _ hfront]
      simp [List.filter_cons, h4, List.append_assoc]

/-- C8: for every holdings list and health score, the alert list returned by
`generate_alerts` is sorted by severity level descending, and since Python's
sort is stable, alerts of equal level keep the order of the pre-sort list —
which is built rule by rule, W-01 first through W-10 last, each rule walking
the holdings in order.  The sorted list is exactly: all level-4 alerts in
rule order, then all level-3, then all level-2. -/
theorem c8_severity_sorted (env : PriceEnv) (sectorOf : SectorEnv)
    (holdings : List Holding) (hs : HealthScore) :
    generate_alerts env sectorOf holdings hs =
      (pre_alerts env sectorOf holdings hs).filter (fun a => decide (a.level = 4)) ++
      (pre_alerts env sectorOf holdings hs).filter (fun a => decide (a.level = 3)) ++
      (pre_alerts env sectorOf holdings hs).filter (fun a => decide (a.level = 2)) ∧
    List.Sorted levelGE (generate_alerts env sectorOf holdings hs) :=
  ⟨insertionSort_filter_decomp _ (pre_alerts_level env sectorOf holdings hs),
    List.sorted_insertionSort levelGE _⟩

/-- C9: every alert emitted by `generate_alerts`, for every input, carries a
severity level in 2, 3, 4; no rule ever emits a level-1 alert. -/
theorem c9_no_level_one (env : PriceEnv) (sectorOf : SectorEnv)
    (holdings : List Holding) (hs : HealthScore) (a : Alert)
    (ha : a ∈ generate_alerts env sectorOf holdings hs) :
    a.level = 2 ∨ a.level = 3 ∨ a.level = 4 :=
  pre_alerts_level env sectorOf holdings hs a
    ((List.perm_insertionSort levelGE _).mem_iff.mp ha)

theorem c9_no_level_one_witness :
    ((⟨"W-04", 4, none⟩ : Alert) ∈
      generate_alerts (fun _ _ => []) (fun _ => none) [] ⟨30, "red"⟩) ∧
    ((⟨"W-04", 4, none⟩ : Alert).level = 2 ∨ (⟨"W-04", 4, none⟩ : Alert).level = 3 ∨
      (⟨"W-04", 4, none⟩ : Alert).level = 4) :=
  ⟨by
    norm_num [generate_alerts, pre_alerts, check_w01_daily_drop,
      check_w02_w03_loss_from_buy, check_w04_w05_health, check_w06_concentration,
      check_w07_sector_concentration, check_w08_market_crash,
      check_w09_majority_drop, check_w10_stale_loss, calc_weights,
      sector_weights, List.insertionSort, List.orderedInsert],
    c9_no_level_one (fun _ _ => []) (fun _ => none) [] ⟨30, "red"⟩ ⟨"W-04", 4, none⟩
      (by
        norm_num [generate_alerts, pre_alerts, check_w01_daily_drop,
          check_w02_w03_loss_from_buy, check_w04_w05_health, check_w06_concentration,
          check_w07_sector_concentration, check_w08_market_crash,
          check_w09_majority_drop, check_w10_stale_loss, calc_weights,
          sector_weights, List.insertionSort, List.orderedInsert])⟩

lemma sum_sq_le_sq_sum (l : List ℚ) (h : ∀ x ∈ l, 0 ≤ x) :
    (l.map (fun x => x ^ 2)).sum ≤ l.sum ^ 2 := by
  induction l with
  | nil => simp
  | cons a t ih =>
    have ha : 0 ≤ a := h a (List.mem_cons_self _ _)
    have ht : ∀ x ∈ t, 0 ≤ x := fun x hx => h x (List.mem_cons_of_mem _ hx)
    have hst : 0 ≤ t.sum := List.sum_nonneg ht
    have hih := ih ht
    simp only [List.map_cons, List.sum_cons]
    nlinarith [hih, mul_nonneg ha hst]

lemma sum_sq_eq_zero_of_sum_eq_zero (l : List ℚ) (h : ∀ x ∈ l, 0 ≤ x)
    (hs : l.sum = 0) : (l.map (fun x => x ^ 2)).sum = 0 := by
  induction l with
  | nil => simp
  | cons a t ih =>
    have ha : 0 ≤ a := h a (List.mem_cons_self _ _)
    have ht : ∀ x ∈ t, 0 ≤ x := fun x hx => h x (List.mem_cons_of_mem _ hx)
    have hst : 0 ≤ t.sum := List.sum_nonneg ht
    rw [List.sum_cons] at hs
    have ha0 : a = 0 := by linarith
    have hts : t.sum = 0 := by linarith
    simp only [List.map_cons, List.sum_cons, ha0, ih ht hts]
    norm_num

lemma sum_sq_eq_sq_sum_iff (l : List ℚ) (h : ∀ x ∈ l, 0 ≤ x) (hpos : 0 < l.sum) :
    ((l.map (fun x => x ^ 2)).sum = l.sum ^ 2 ↔ ∃ x ∈ l, x = l.sum) := by
  induction l with
  | nil => simp at hpos
  | cons a t ih =>
    have ha : 0 ≤ a := h a (List.mem_cons_self _ _)
    have ht : ∀ x ∈ t, 0 ≤ x := fun x hx => h x (List.mem_cons_of_mem _ hx)
    have hst : 0 ≤ t.sum := List.sum_nonneg ht
    have hS2 : (t.map (fun x => x ^ 2)).sum ≤ t.sum ^ 2 := sum_sq_le_sq_sum t ht
    simp only [List.map_cons, List.sum_cons]
    constructor
    · intro heq
      have hmul : a * t.sum = 0 := by nlinarith [mul_nonneg ha hst]
      rcases mul_eq_zero.mp hmul with ha0 | hst0
      · have hpos' : 0 < t.sum := by
          rw [List.sum_cons] at hpos; linarith
        have heq' : (t.map (fun x => x ^ 2)).sum = t.sum ^ 2 := by nlinarith
        rcases (ih ht hpos').mp heq' with ⟨x, hx, hxe⟩
        exact ⟨x, List.mem_cons_of_mem _ hx, by rw [hxe, ha0, zero_add]⟩
      · exact ⟨a, List.mem_cons_self _ _, by rw [hst0, add_zero]⟩
    · rintro ⟨x, hx, hxe⟩
      rcases List.mem_cons.mp hx with rfl | hx'
      · have hst0 : t.sum = 0 := by linarith [hxe]
        have h2 : (t.map (fun x => x ^ 2)).sum = 0 :=
          sum_sq_eq_zero_of_sum_eq_zero t ht hst0
        rw [h2, hst0]
        ring
      · have hxle : x ≤ t.sum := List.single_le_sum ht x hx'
        have ha0 : a = 0 := by linarith [hxe]
        have hpos' : 0 < t.sum := by
          rw [List.sum_cons, ha0, zero_add] at hpos; exact hpos
        have hxe' : x = t.sum := by linarith [hxe]
        have h2 : (t.map (fun x => x ^ 2)).sum = t.sum ^ 2 :=
          (ih ht hpos').mpr ⟨x, hx', hxe'⟩
        rw [h2, ha0]
        ring

lemma map_div_sq_sum (l : List ℚ) (T : ℚ) :
    (l.map (fun w => (w / T) ^ 2)).sum = (l.map (fun w => w ^ 2)).sum / T ^ 2 := by
  induction l with
  | nil => simp
  | cons a t ih =>
    simp only [List.map_cons, List.sum_cons]
    rw [ih, div_pow, add_div]

/-- C7, counterexample: the claim quantifies over ALL weight mappings, but a
mapping with a negative weight (a short position) drives the index above 1,
and n tickers equally weighted at zero produce 0 rather than 1/n. -/
theorem c7_counterexample :
    calculate_hhi [("A", 2), ("B", -1)] = 5 ∧
    ¬(calculate_hhi [("A", 2), ("B", -1)] ≤ 1) ∧
    calculate_hhi [("A", 0), ("B", 0)] = 0 ∧
    calculate_hhi [("A", 0), ("B", 0)] ≠ 1 / 2 := by
  norm_num [calculate_hhi, List.cons_ne_nil]

/-- C7, amended: for every mapping of NONNEGATIVE weights, the concentration
index lies in [0, 1]; it equals 1 exactly when one ticker carries the whole
(positive) total value, and it equals 1/n when n tickers carry the same
positive weight. -/
theorem c7_hhi_bounds (weights : List (String × ℚ)) (n : ℕ) (v : ℚ)
    (hnn : ∀ p ∈ weights, 0 ≤ p.2) :
    (0 ≤ calculate_hhi weights ∧ calculate_hhi weights ≤ 1) ∧
    (calculate_hhi weights = 1 ↔
      ∃ p ∈ weights, p.2 = (weights.map Prod.snd).sum ∧ 0 < p.2) ∧
    (0 < n → 0 < v → weights.map Prod.snd = List.replicate n v →
      calculate_hhi weights = 1 / n) := by
  have hvs : ∀ x ∈ weights.map Prod.snd, 0 ≤ x := by
    intro x hx
    rcases List.mem_map.mp hx with ⟨p, hp, rfl⟩
    exact hnn p hp
  by_cases hw : weights = []
  · subst hw
    refine ⟨by norm_num [calculate_hhi], by simp [calculate_hhi], ?_⟩
    intro hn _ hrep
    simp only [List.map_nil] at hrep
    have := congrArg List.length hrep
    simp at this
    omega
  · by_cases hT : (weights.map Prod.snd).sum = 0
    · have hall : ∀ x ∈ weights.map Prod.snd, x = 0 := by
        intro x hx
        have hle : x ≤ (weights.map Prod.snd).sum := List.single_le_sum hvs x hx
        have := hvs x hx
        rw [hT] at hle
        linarith
      refine ⟨?_, ?_, ?_⟩
      · rw [calculate_hhi, if_neg hw, if_pos hT]
        norm_num
      · rw [calculate_hhi, if_neg hw, if_pos hT]
        constructor
        · intro h01; exact absurd h01 (by norm_num)
        · rintro ⟨p, hp, hpe, hppos⟩
          rw [hT] at hpe
          exact absurd hppos (by rw [hpe]; norm_num)
      · intro hn hv hrep
        rw [hrep, List.sum_replicate, nsmul_eq_mul] at hT
        have : (n : ℚ) = 0 ∨ v = 0 := mul_eq_zero.mp hT
        rcases this with h0 | h0
        · have : n = 0 := by exact_mod_cast h0
          omega
        · exact absurd h0 (ne_of_gt hv)
    · have hTpos : 0 < (weights.map Prod.snd).sum :=
        lt_of_le_of_ne (List.sum_nonneg hvs) (Ne.symm hT)
      have hhi_eq : calculate_hhi weights =
          ((weights.map Prod.snd).map (fun x => x ^ 2)).sum
            / ((weights.map Prod.snd).sum) ^ 2 := by
        rw [calculate_hhi, if_neg hw, if_neg hT]
        exact map_div_sq_sum _ _
      have hS2nn : 0 ≤ ((weights.map Prod.snd).map (fun x => x ^ 2)).sum := by
        apply List.sum_nonneg
        intro x hx
        rcases List.mem_map.mp hx with ⟨y, -, rfl⟩
        positivity
      have hsq : (0 : ℚ) < ((weights.map Prod.snd).sum) ^ 2 := by positivity
      refine ⟨⟨?_, ?_⟩, ?_, ?_⟩
      · rw [hhi_eq]; positivity
      · rw [hhi_eq, div_le_one hsq]
        exact sum_sq_le_sq_sum _ hvs
      · rw [hhi_eq, div_eq_one_iff_eq (ne_of_gt hsq),
          sum_sq_eq_sq_sum_iff _ hvs hTpos]
        constructor
        · rintro ⟨x, hx, hxe⟩
          rcases List.mem_map.mp hx with ⟨p, hp, rfl⟩
          exact ⟨p, hp, hxe, hxe ▸ hTpos⟩
        · rintro ⟨p, hp, hpe, -⟩
          exact ⟨p.2, List.mem_map.mpr ⟨p, hp, rfl⟩, hpe⟩
      · intro hn hv hrep
        have hTv : (weights.map Prod.snd).sum = (n : ℚ) * v := by
          rw [hrep, List.sum_replicate, nsmul_eq_mul]
        have hmap : ((weights.map Prod.snd).map (fun x => x ^ 2)).sum
            = (n : ℚ) * v ^ 2 := by
          rw [hrep]
          rw [List.map_replicate, List.sum_replicate, nsmul_eq_mul]
        rw [hhi_eq, hmap, hTv]
        have hnq : (n : ℚ) ≠ 0 := Nat.cast_ne_zero.mpr (by omega)
        have hvq : v ≠ 0 := ne_of_gt hv
        field_simp
        ring

theorem c7_hhi_bounds_witness :
    (∀ p ∈ [("A", (1 : ℚ)), ("B", 1)], 0 ≤ p.2) ∧
    ((0 ≤ calculate_hhi [("A", 1), ("B", 1)] ∧ calculate_hhi [("A", 1), ("B", 1)] ≤ 1) ∧
    (calculate_hhi [("A", 1), ("B", 1)] = 1 ↔
      ∃ p ∈ [("A", (1 : ℚ)), ("B", 1)],
        p.2 = ([("A", (1 : ℚ)), ("B", 1)].map Prod.snd).sum ∧ 0 < p.2) ∧
    (0 < 2 → (0 : ℚ) < 1 →
      [("A", (1 : ℚ)), ("B", 1)].map Prod.snd = List.replicate 2 (1 : ℚ) →
      calculate_hhi [("A", 1), ("B", 1)] = 1 / (2 : ℕ))) :=
  ⟨by norm_num,
    c7_hhi_bounds [("A", 1), ("B", 1)] 2 1 (by norm_num)⟩

lemma getD_eq_getElem_of_lt (s : List ℚ) (d : ℚ) {i : ℕ} (h : i < s.length) :
    s.getD i d = s[i] := by
  simp [List.getD_eq_getElem?_getD, List.getElem?_eq_getElem h]

lemma getD_eq_default_of_le (s : List ℚ) (d : ℚ) {i : ℕ} (h : s.length ≤ i) :
    s.getD i d = d := by
  simp [List.getD_eq_getElem?_getD, List.getElem?_eq_none h]

lemma sorted_getElem_le (s : List ℚ) (hs : List.Sorted (· ≤ ·) s) {i j : ℕ}
    (hij : i ≤ j) (hj : j < s.length) : s.getD i 0 ≤ s.getD j 0 := by
  have hi : i < s.length := lt_of_le_of_lt hij hj
  rw [getD_eq_getElem_of_lt s 0 hi, getD_eq_getElem_of_lt s 0 hj]
  have := hs.rel_get_of_le (a := ⟨i, hi⟩) (b := ⟨j, hj⟩) hij
  simpa [List.get_eq_getElem] using this

/-- On a sorted list the interpolated value never decreases when the second
slot is read: `getD i 0 ≤ getD (i+1) (getD i 0)`, whether or not `i+1` is in
range (out of range it falls back to the left value). -/
lemma getD_succ_ge (s : List ℚ) (hs : List.Sorted (· ≤ ·) s) {i : ℕ}
    (hi : i < s.length) : s.getD i 0 ≤ s.getD (i + 1) (s.getD i 0) := by
  by_cases hi1 : i + 1 < s.length
  · rw [getD_eq_getElem_of_lt s _ hi1]
    rw [getD_eq_getElem_of_lt s 0 hi]
    have := sorted_getElem_le s hs (Nat.le_succ i) hi1
    rw [getD_eq_getElem_of_lt s 0 hi, getD_eq_getElem_of_lt s 0 hi1] at this
    exact this
  · rw [getD_eq_default_of_le s _ (not_lt.mp hi1)]

/-- The linear-interpolation percentile is monotone in the requested
percentage on any data list: the core of VaR monotonicity. -/
lemma npPercentile_mono (a : List ℚ) (q1 q2 : ℚ) (h0 : 0 ≤ q1) (h12 : q1 ≤ q2)
    (h100 : q2 ≤ 100) (hlen : 1 ≤ a.length) :
    npPercentile a q1 ≤ npPercentile a q2 := by
  simp only [npPercentile]
  set s := a.insertionSort (· ≤ ·) with hsdef
  have hs : List.Sorted (· ≤ ·) s := List.sorted_insertionSort _ a
  have hslen : s.length = a.length := (List.perm_insertionSort _ a).length_eq
  set H1 := q1 / 100 * ((a.length : ℚ) - 1) with hH1
  set H2 := q2 / 100 * ((a.length : ℚ) - 1) with hH2
  have hn1 : (0 : ℚ) ≤ (a.length : ℚ) - 1 := by
    have : (1 : ℚ) ≤ (a.length : ℚ) := by exact_mod_cast hlen
    linarith
  have h1nn : 0 ≤ H1 := mul_nonneg (by linarith) hn1
  have h12' : H1 ≤ H2 := mul_le_mul_of_nonneg_right (by linarith) hn1
  have h2nn : 0 ≤ H2 := le_trans h1nn h12'
  have h2ub : H2 ≤ (a.length : ℚ) - 1 := by
    have := mul_le_mul_of_nonneg_right (show q2 / 100 ≤ 1 by linarith) hn1
    simpa using this
  have hfl1 : (0 : ℤ) ≤ ⌊H1⌋ := Int.floor_nonneg.mpr h1nn
  have hfl2 : (0 : ℤ) ≤ ⌊H2⌋ := Int.floor_nonneg.mpr h2nn
  set i1 := (⌊H1⌋).toNat with hi1def
  set i2 := (⌊H2⌋).toNat with hi2def
  have hc1 : ((i1 : ℤ) : ℚ) = ((⌊H1⌋ : ℤ) : ℚ) := by
    rw [hi1def, Int.toNat_of_nonneg hfl1]
  have hc2 : ((i2 : ℤ) : ℚ) = ((⌊H2⌋ : ℤ) : ℚ) := by
    rw [hi2def, Int.toNat_of_nonneg hfl2]
  have hle1 : (i1 : ℚ) ≤ H1 := by
    have := Int.floor_le H1
    push_cast at hc1
    linarith [hc1 ▸ this]
  have hlt1 : H1 < (i1 : ℚ) + 1 := by
    have := Int.lt_floor_add_one H1
    push_cast at hc1
    linarith [hc1 ▸ this]
  have hle2 : (i2 : ℚ) ≤ H2 := by
    have := Int.floor_le H2
    push_cast at hc2
    linarith [hc2 ▸ this]
  have hlt2 : H2 < (i2 : ℚ) + 1 := by
    have := Int.lt_floor_add_one H2
    push_cast at hc2
    linarith [hc2 ▸ this]
  have hi12 : i1 ≤ i2 := by
    have := Int.floor_le_floor h12'
    omega
  have hi2lt : i2 < a.length := by
    have hfloor : ⌊H2⌋ ≤ ⌊((a.length : ℚ) - 1)⌋ := Int.floor_le_floor h2ub
    have hcast : ((a.length : ℚ) - 1) = (((a.length : ℤ) - 1 : ℤ) : ℚ) := by push_cast; ring
    rw [hcast, Int.floor_intCast] at hfloor
    omega
  have hi1lt : i1 < a.length := lt_of_le_of_lt hi12 hi2lt
  have hi1lt' : i1 < s.length := by rw [hslen]; exact hi1lt
  have hi2lt' : i2 < s.length := by rw [hslen]; exact hi2lt
  rcases eq_or_lt_of_le hi12 with heq | hlt
  · rw [← heq]
    have hyx : s.getD i1 0 ≤ s.getD (i1 + 1) (s.getD i1 0) := getD_succ_ge s hs hi1lt'
    nlinarith [mul_nonneg (sub_nonneg.mpr h12') (sub_nonneg.mpr hyx)]
  · have hi11lt' : i1 + 1 < s.length := by rw [hslen]; omega
    have hx1y1 : s.getD i1 0 ≤ s.getD (i1 + 1) (s.getD i1 0) := getD_succ_ge s hs hi1lt'
    have hy1 : s.getD (i1 + 1) (s.getD i1 0) = s.getD (i1 + 1) 0 := by
      rw [getD_eq_getElem_of_lt s _ hi11lt', getD_eq_getElem_of_lt s 0 hi11lt']
    have hy1x2 : s.getD (i1 + 1) 0 ≤ s.getD i2 0 := sorted_getElem_le s hs hlt hi2lt'
    have hx2y2 : s.getD i2 0 ≤ s.getD (i2 + 1) (s.getD i2 0) := getD_succ_ge s hs hi2lt'
    have step1 : s.getD i1 0 + (H1 - (i1 : ℚ)) * (s.getD (i1 + 1) (s.getD i1 0) - s.getD i1 0)
        ≤ s.getD (i1 + 1) (s.getD i1 0) := by
      nlinarith [mul_nonneg (show (0:ℚ) ≤ 1 - (H1 - (i1 : ℚ)) by linarith)
        (sub_nonneg.mpr hx1y1)]
    have step3 : s.getD i2 0
        ≤ s.getD i2 0 + (H2 - (i2 : ℚ)) * (s.getD (i2 + 1) (s.getD i2 0) - s.getD i2 0) := by
      nlinarith [mul_nonneg (show (0:ℚ) ≤ H2 - (i2 : ℚ) by linarith)
        (sub_nonneg.mpr hx2y2)]
    calc s.getD i1 0 + (H1 - (i1 : ℚ)) * (s.getD (i1 + 1) (s.getD i1 0) - s.getD i1 0)
        ≤ s.getD (i1 + 1) (s.getD i1 0) := step1
      _ = s.getD (i1 + 1) 0 := hy1
      _ ≤ s.getD i2 0 := hy1x2
      _ ≤ s.getD i2 0 + (H2 - (i2 : ℚ)) * (s.getD (i2 + 1) (s.getD i2 0) - s.getD i2 0) :=
          step3

/-- C3, counterexample: on an all-positive return series the percentile
values are positive, and taking absolute values then REVERSES the direction:
the 1st percentile is closer to zero than the 5th, so VaR(99%) < VaR(95%). -/
theorem c3_counterexample :
    calculate_var
        [1/100, 2/100, 3/100, 4/100, 5/100, 6/100, 7/100, 8/100, 9/100, 10/100]
        (99/100) 1
      < calculate_var
        [1/100, 2/100, 3/100, 4/100, 5/100, 6/100, 7/100, 8/100, 9/100, 10/100]
        (95/100) 1 := by
  norm_num [calculate_var, npPercentile, List.insertionSort, List.orderedInsert]
  rw [abs_of_nonneg (by norm_num : (0:ℚ) ≤ 109/10000),
    abs_of_nonneg (by norm_num : (0:ℚ) ≤ 29/2000)]
  norm_num

/-- C3, amended: for every daily-return series with at least 10 observations
whose 5th percentile is non-positive (a loss tail, the situation the spec
describes) and a nonnegative notional, VaR at 99% confidence is at least VaR
at 95% confidence. -/
theorem c3_var_monotone (returns : List ℚ) (pv : ℚ)
    (hlen : 10 ≤ returns.length) (hneg : npPercentile returns 5 ≤ 0)
    (hpv : 0 ≤ pv) :
    calculate_var returns (95/100) pv ≤ calculate_var returns (99/100) pv := by
  have hnotlt : ¬ returns.length < 10 := by omega
  rw [calculate_var, calculate_var, if_neg hnotlt, if_neg hnotlt]
  have e95 : (1 - 95/100) * 100 = (5 : ℚ) := by norm_num
  have e99 : (1 - 99/100) * 100 = (1 : ℚ) := by norm_num
  rw [e95, e99]
  have hmono : npPercentile returns 1 ≤ npPercentile returns 5 :=
    npPercentile_mono returns 1 5 (by norm_num) (by norm_num) (by norm_num) (by omega)
  have habs : |npPercentile returns 5| ≤ |npPercentile returns 1| := by
    rw [abs_of_nonpos hneg, abs_of_nonpos (le_trans hmono hneg)]
    linarith
  exact mul_le_mul_of_nonneg_right habs hpv

theorem c3_var_monotone_witness :
    (10 ≤ ([-1/100, -2/100, -3/100, -4/100, -5/100, -6/100, -7/100, -8/100,
            -9/100, -10/100] : List ℚ).length) ∧
    npPercentile [-1/100, -2/100, -3/100, -4/100, -5/100, -6/100, -7/100, -8/100,
      -9/100, -10/100] 5 ≤ 0 ∧
    ((0 : ℚ) ≤ 1) ∧
    calculate_var [-1/100, -2/100, -3/100, -4/100, -5/100, -6/100, -7/100, -8/100,
        -9/100, -10/100] (95/100) 1
      ≤ calculate_var [-1/100, -2/100, -3/100, -4/100, -5/100, -6/100, -7/100, -8/100,
        -9/100, -10/100] (99/100) 1 :=
  ⟨by norm_num,
   by norm_num [npPercentile, List.insertionSort, List.orderedInsert],
   by norm_num,
   c3_var_monotone _ 1 (by norm_num)
     (by norm_num [npPercentile, List.insertionSort, List.orderedInsert]) (by norm_num)⟩

lemma calculate_ma_length (w : ℕ) (closes : List ℚ) :
    (calculate_ma w closes).length = closes.length + 1 - w := by
  simp [calculate_ma]

/-- The element of the moving-average list `k` days before its last entry is
the simple moving average of the `w` closes ending `k` days before the most
recent close. -/
lemma calculate_ma_getD (w k : ℕ) (closes : List ℚ) (hw : 0 < w)
    (hk : k + w ≤ closes.length) :
    (calculate_ma w closes).getD (closes.length - w - k) 0 = smaEnd closes w k := by
  have hlt : closes.length - w - k < closes.length + 1 - w := by omega
  have hlt' : closes.length - w - k < (calculate_ma w closes).length := by
    rw [calculate_ma_length]; omega
  rw [getD_eq_getElem_of_lt _ _ hlt']
  simp only [calculate_ma, List.getElem_map, List.getElem_range]
  rw [smaEnd]
  congr 1
  rw [List.take_drop]
  have h1 : closes.length - w - k + w = closes.length - k := by omega
  have h2 : closes.length - w - k = closes.length - k - w := by omega
  rw [h1, h2]

/-- C6: for a price series long enough for the detector (at least
`long_window + 2` rows, its own requirement), a golden-cross signal is
returned iff the short moving average was at or below the long one on the
prior day and is strictly above it on the current day; and if the short
average strictly exceeds the long average on every day where both exist, no
signal is returned. -/
theorem c6_golden_cross_iff (ticker : String) (df : PriceSeries)
    (short_window long_window : ℕ) (hs : 0 < short_window)
    (hsl : short_window ≤ long_window) (hlen : long_window + 2 ≤ df.length) :
    ((detect_golden_cross ticker df short_window long_window).isSome ↔
      (smaEnd (closesOf df) short_window 1 ≤ smaEnd (closesOf df) long_window 1 ∧
       smaEnd (closesOf df) long_window 0 < smaEnd (closesOf df) short_window 0)) ∧
    ((∀ k, k + long_window ≤ df.length →
        smaEnd (closesOf df) long_window k < smaEnd (closesOf df) short_window k) →
      detect_golden_cross ticker df short_window long_window = none) := by
  have hl : 0 < long_window := lt_of_lt_of_le hs hsl
  have hclen : (closesOf df).length = df.length := by simp [closesOf]
  have hnotlt : ¬ df.length < long_window + 2 := by omega
  have hmaS : (calculate_ma short_window (closesOf df)).length
      = df.length + 1 - short_window := by rw [calculate_ma_length, hclen]
  have hmaL : (calculate_ma long_window (closesOf df)).length
      = df.length + 1 - long_window := by rw [calculate_ma_length, hclen]
  have hguard : ¬((calculate_ma short_window (closesOf df)).length < 2 ∨
      (calculate_ma long_window (closesOf df)).length < 2) := by
    rw [hmaS, hmaL]
    push_neg
    constructor <;> omega
  have eS1 : (calculate_ma short_window (closesOf df)).getD
      ((calculate_ma short_window (closesOf df)).length - 2) 0
      = smaEnd (closesOf df) short_window 1 := by
    rw [hmaS]
    have h : df.length + 1 - short_window - 2
        = (closesOf df).length - short_window - 1 := by rw [hclen]; omega
    rw [h]
    exact calculate_ma_getD short_window 1 (closesOf df) hs (by rw [hclen]; omega)
  have eL1 : (calculate_ma long_window (closesOf df)).getD
      ((calculate_ma long_window (closesOf df)).length - 2) 0
      = smaEnd (closesOf df) long_window 1 := by
    rw [hmaL]
    have h : df.length + 1 - long_window - 2
        = (closesOf df).length - long_window - 1 := by rw [hclen]; omega
    rw [h]
    exact calculate_ma_getD long_window 1 (closesOf df) hl (by rw [hclen]; omega)
  have eS0 : (calculate_ma short_window (closesOf df)).getD
      ((calculate_ma short_window (closesOf df)).length - 1) 0
      = smaEnd (closesOf df) short_window 0 := by
    rw [hmaS]
    have h : df.length + 1 - short_window - 1
        = (closesOf df).length - short_window - 0 := by rw [hclen]; omega
    rw [h]
    exact calculate_ma_getD short_window 0 (closesOf df) hs (by rw [hclen]; omega)
  have eL0 : (calculate_ma long_window (closesOf df)).getD
      ((calculate_ma long_window (closesOf df)).length - 1) 0
      = smaEnd (closesOf df) long_window 0 := by
    rw [hmaL]
    have h : df.length + 1 - long_window - 1
        = (closesOf df).length - long_window - 0 := by rw [hclen]; omega
    rw [h]
    exact calculate_ma_getD long_window 0 (closesOf df) hl (by rw [hclen]; omega)
  rw [detect_golden_cross, if_neg hnotlt]
  simp only [] 
  rw [if_neg hguard, eS1, eL1, eS0, eL0]
  constructor
  · by_cases hc : smaEnd (closesOf df) short_window 1 ≤ smaEnd (closesOf df) long_window 1 ∧
        smaEnd (closesOf df) long_window 0 < smaEnd (closesOf df) short_window 0
    · rw [if_pos hc]
      simp [hc]
    · rw [if_neg hc]
      simp [hc]
  · intro hall
    have h1 := hall 1 (by omega)
    rw [if_neg]
    rintro ⟨hc1, -⟩
    exact absurd hc1 (not_le.mpr h1)

theorem c6_golden_cross_iff_witness :
    (0 < 5) ∧ (5 ≤ 20) ∧ (20 + 2 ≤ (List.replicate 22 ((0 : ℤ), (1 : ℚ))).length) ∧
    (((detect_golden_cross "AAPL" (List.replicate 22 ((0 : ℤ), (1 : ℚ))) 5 20).isSome ↔
      (smaEnd (closesOf (List.replicate 22 ((0 : ℤ), (1 : ℚ)))) 5 1 ≤
         smaEnd (closesOf (List.replicate 22 ((0 : ℤ), (1 : ℚ)))) 20 1 ∧
       smaEnd (closesOf (List.replicate 22 ((0 : ℤ), (1 : ℚ)))) 20 0 <
         smaEnd (closesOf (List.replicate 22 ((0 : ℤ), (1 : ℚ)))) 5 0)) ∧
    ((∀ k, k + 20 ≤ (List.replicate 22 ((0 : ℤ), (1 : ℚ))).length →
        smaEnd (closesOf (List.replicate 22 ((0 : ℤ), (1 : ℚ)))) 20 k <
          smaEnd (closesOf (List.replicate 22 ((0 : ℤ), (1 : ℚ)))) 5 k) →
      detect_golden_cross "AAPL" (List.replicate 22 ((0 : ℤ), (1 : ℚ))) 5 20 = none)) :=
  ⟨by norm_num, by norm_num, by simp,
    c6_golden_cross_iff "AAPL" (List.replicate 22 ((0, 1))) 5 20
      (by norm_num) (by norm_num) (by simp)⟩

lemma individual_returns_invariant (env : PriceEnv) (period : String) :
    ∀ (holdings : List Holding) (init : List (String × PriceSeries)),
      (∀ p ∈ init, p.2 = pctChange (env p.1 period)) →
      ∀ p ∈ holdings.foldl
        (fun d h =>
          if 2 ≤ (env h.ticker period).length
            then dictInsert h.ticker (pctChange (env h.ticker period)) d else d)
        init,
        p.2 = pctChange (env p.1 period) := by
  intro holdings
  induction holdings with
  | nil => intro init hinit p hp; exact hinit p hp
  | cons h t ih =>
    intro init hinit p hp
    rw [List.foldl_cons] at hp
    by_cases hc : 2 ≤ (env h.ticker period).length
    · rw [if_pos hc] at hp
      refine ih _ ?_ p hp
      intro q hq
      rcases dictInsert_mem _ _ _ hq with rfl | hq'
      · rfl
      · exact hinit q hq'
    · rw [if_neg hc] at hp
      exact ih _ hinit p hp

lemma individual_returns_val (env : PriceEnv) (period : String)
    (holdings : List Holding) :
    ∀ p ∈ individual_returns env period holdings,
      p.2 = pctChange (env p.1 period) :=
  individual_returns_invariant env period holdings [] (by simp)

/-- C2, amended: when no explicit market index is supplied, ONE market index
is selected for the whole holdings list from the FIRST holding's ticker —
`^N225` if it ends with ".T", else `^GSPC` — and every ticker's beta is
computed against that single index, regardless of the ticker's own suffix. -/
theorem c2_beta_market_index (env : PriceEnv) (period : String)
    (holdings : List Holding) (t : String) (r : ℚ)
    (hmem : (t, r) ∈ risk_betas env period holdings none) :
    r = pyRound 3 (calculate_beta (pctChange (env t period))
          (risk_market_returns env period (risk_market_ticker holdings none))) := by
  unfold risk_betas at hmem
  simp only [] at hmem
  rcases List.mem_map.mp hmem with ⟨p, hp, heq⟩
  have hval := individual_returns_val env period holdings p hp
  rw [Prod.ext_iff] at heq
  obtain ⟨h1, h2⟩ := heq
  simp only at h1 h2
  rw [← h2, hval, h1]

/-- Concrete stock/domestic-index price series for the C2 counterexample:
closes alternate 1, 2, so the daily returns alternate +100% and -50%. -/
def c2StockPrices : PriceSeries :=
  [(0, 1), (1, 2), (2, 1), (3, 2), (4, 1), (5, 2), (6, 1), (7, 2), (8, 1), (9, 2),
   (10, 1), (11, 2)]

/-- Concrete foreign-index series for the C2 counterexample: closes follow
factors 3/2 and 3/4 alternately, so its returns are exactly half the stock's
returns and the beta of the stock against it is 2. -/
def c2GspcPrices : PriceSeries :=
  [(0, 1), (1, 3/2), (2, 9/8), (3, 27/16), (4, 81/64), (5, 243/128), (6, 729/512),
   (7, 2187/1024), (8, 6561/4096), (9, 19683/8192), (10, 59049/32768),
   (11, 177147/65536)]

/-- The price provider for the C2 counterexample. -/
def c2Env : PriceEnv := fun t _ =>
  if t = "7203.T" then c2StockPrices
  else if t = "^N225" then c2StockPrices
  else if t = "^GSPC" then c2GspcPrices
  else if t = "AAPL" then [(0, 1), (1, 1)]
  else []

/-- Holdings whose FIRST ticker is foreign while the second is domestic. -/
def c2Holdings : List Holding := [⟨"AAPL", 1, 1⟩, ⟨"7203.T", 1, 1⟩]

lemma c2_env_aapl : c2Env "AAPL" "1y" = [(0, 1), (1, 1)] := by
  unfold c2Env
  rw [if_neg (by decide), if_neg (by decide), if_neg (by decide), if_pos rfl]

lemma c2_env_stock : c2Env "7203.T" "1y" = c2StockPrices := by
  unfold c2Env
  rw [if_pos rfl]

lemma c2_env_gspc : c2Env "^GSPC" "1y" = c2GspcPrices := by
  unfold c2Env
  rw [if_neg (by decide), if_neg (by decide), if_pos rfl]

lemma c2_beta_stock_gspc :
    calculate_beta (pctChange c2StockPrices) (pctChange c2GspcPrices) = 2 := by
  norm_num [calculate_beta, pctChange, c2StockPrices, c2GspcPrices, alignSeries,
    List.filterMap_cons, List.find?, sampleVar, sampleCov, listMean, List.cons_ne_nil]

lemma c2_beta_aapl_gspc :
    calculate_beta (pctChange [(0, 1), (1, 1)]) (pctChange c2GspcPrices) = 1 := by
  norm_num [calculate_beta, pctChange, c2GspcPrices, alignSeries,
    List.filterMap_cons, List.find?, List.cons_ne_nil]

lemma c2_betas_eval :
    risk_betas c2Env "1y" c2Holdings none = [("AAPL", 1), ("7203.T", 2)] := by
  have hmt : risk_market_ticker c2Holdings none = "^GSPC" := by decide
  have hmret : risk_market_returns c2Env "1y" "^GSPC" = pctChange c2GspcPrices := by
    rw [risk_market_returns, c2_env_gspc, if_pos (by norm_num [c2GspcPrices])]
  have hind : individual_returns c2Env "1y" c2Holdings =
      [("AAPL", pctChange [(0, 1), (1, 1)]), ("7203.T", pctChange c2StockPrices)] := by
    simp only [individual_returns, c2Holdings, List.foldl_cons, List.foldl_nil,
      c2_env_aapl, c2_env_stock]
    rw [if_pos (by norm_num [c2StockPrices]), if_pos (by norm_num [c2StockPrices])]
    rfl
  simp only [risk_betas]
  rw [hmt, hmret, hind]
  simp only [List.map_cons, List.map_nil, c2_beta_stock_gspc, c2_beta_aapl_gspc]
  norm_num [pyRound, rhe]

lemma c2_membership : ("7203.T", (2 : ℚ)) ∈ risk_betas c2Env "1y" c2Holdings none := by
  rw [c2_betas_eval]
  simp

lemma c2_env_n225 : c2Env "^N225" "1y" = c2StockPrices := by
  unfold c2Env
  rw [if_neg (by decide), if_pos rfl]

lemma c2_beta_stock_self :
    calculate_beta (pctChange c2StockPrices) (pctChange c2StockPrices) = 1 := by
  norm_num [calculate_beta, pctChange, c2StockPrices, alignSeries,
    List.filterMap_cons, List.find?, sampleVar, sampleCov, listMean, List.cons_ne_nil]

lemma c2_spec_eval : beta_spec c2Env "1y" "7203.T" = 1 := by
  have hend : strEndsWith "7203.T" ".T" = true := by decide
  have hmret : risk_market_returns c2Env "1y" "^N225" = pctChange c2StockPrices := by
    rw [risk_market_returns, c2_env_n225, if_pos (by norm_num [c2StockPrices])]
  simp only [beta_spec, hend, if_true, MARKET_INDEX_JP]
  rw [hmret, c2_env_stock, c2_beta_stock_self]
  norm_num [pyRound, rhe]

/-- C2, counterexample: with first holding "AAPL" and second "7203.T", the
single portfolio-wide index is `^GSPC`, so the beta reported for "7203.T" is
2 (against `^GSPC`), while the claim demands it be computed against `^N225`,
which would give 1. -/
theorem c2_counterexample :
    (("7203.T", (2 : ℚ)) ∈ risk_betas c2Env "1y" c2Holdings none) ∧
    beta_spec c2Env "1y" "7203.T" = 1 ∧ ((2 : ℚ) ≠ 1) :=
  ⟨c2_membership, c2_spec_eval, by norm_num⟩

theorem c2_beta_market_index_witness :
    (("7203.T", (2 : ℚ)) ∈ risk_betas c2Env "1y" c2Holdings none) ∧
    (2 : ℚ) = pyRound 3 (calculate_beta (pctChange (c2Env "7203.T" "1y"))
      (risk_market_returns c2Env "1y" (risk_market_ticker c2Holdings none))) :=
  ⟨c2_membership, c2_beta_market_index c2Env "1y" c2Holdings "7203.T" 2 c2_membership⟩

end Trader
